import Mathlib

/-!
Verification of the Job abstraction of the `automationcloud/robot` library.

The development shallowly embeds the TypeScript sources:

- `packages/robot/src/main/job.ts` — the abstract `Job` facade
  (`waitForOutputs`, `onAwaitingInput`, `_createJobEventHandler`);
- `packages/robot/src/main/robot.ts` — `Robot.createJob` defaults (and the
  legacy inline copy of `Job` kept in that file);
- `packages/local-robot/src/main/local-job.ts` — `LocalJob` (latest of the
  concatenated versions: `getErrorInfo`, `_setupScriptListeners`,
  `_checkOutputs`);
- `packages/local-robot/src/main/overrides/flow.ts` —
  `LocalFlowService.requestInputData` / `submitInput` / `sendOutputData`;
- the cloud driver `CloudJob` (latest of the concatenated versions:
  constructor, `_track`, `_processJobEvent`, `_checkOutputs`, `submitInput`,
  `getErrorInfo`).

All code runs on a single-threaded event loop: listener callbacks invoked by
`EventEmitter.emit` run synchronously and atomically, so stateful promise
machinery (the `waitForOutputs` race, the pending input request of
`requestInputData`) is embedded as a step function folded over the sequence of
bus occurrences delivered to it, and the cloud polling loop as structural
recursion over the schedule of poll batch sizes. Arbitrary JSON payloads
(`data: any`) are modelled by a type parameter `α`.
-/

/-- JobState enum from job.ts. -/
inductive JobState where
  | created
  | scheduled
  | processing
  | awaitingInput
  | awaitingTds
  | pending
  | success
  | fail
deriving DecidableEq, Repr

/-- JobCategory enum from job.ts. -/
inductive JobCategory where
  | live
  | test
deriving DecidableEq, Repr

/-- Normalized job error (JobError interface of job.ts): `code`, `category`,
`message`. The free-form `details` field is not inspected by any claim and is
omitted. -/
structure JobError where
  category : String
  code : String
  message : String
deriving DecidableEq, Repr

/-- JobOutput: a key/data pair emitted by the automation. -/
structure JobOutput (α : Type) where
  key : String
  data : α
deriving DecidableEq, Repr

/-- JobInput: a key/data pair supplied by the caller. -/
structure JobInput (α : Type) where
  key : String
  data : α
deriving DecidableEq, Repr

/-- Typed bus notification (the JobEventBus channels of job.ts). The `fail`
channel carries the `Exception` constructed at the emit site; only its `name`
is inspected by the claims, so the payload is the name string. -/
inductive BusNotif (α : Type) where
  | stateChanged (newState : JobState) (previousState : JobState)
  | awaitingInput (key : String)
  | output (key : String) (data : α)
  | input (key : String) (data : α)
  | success
  | fail (exceptionName : String)
deriving DecidableEq, Repr

/-! ## Output caches and `_checkOutputs`

`LocalJob._checkOutputs` reads `this.localFlow.outputs` (an array, looked up
with `outputs.find(o => o.key === key)`); `CloudJob._checkOutputs` reads
`this.outputsMap` (a `Map<string, JobOutput>` populated with
`outputsMap.set(key, { key, data })`). A JS `Map.set` overwrites the entry in
place when the key exists and appends otherwise; `Map.get` finds by key. -/

/-- JS `Map.set` on an association list: overwrite in place, else append. -/
def mapSet {β : Type} (m : List (String × β)) (key : String) (v : β) :
    List (String × β) :=
  match m with
  | [] => [(key, v)]
  | (k, w) :: rest =>
      if k == key then (k, v) :: rest else (k, w) :: mapSet rest key v

/-- JS `Map.get` on an association list. -/
def mapGet {β : Type} (m : List (String × β)) (key : String) : Option β :=
  (m.find? (fun e => e.1 == key)).map (fun e => e.2)

/-- The accumulation loop of `LocalJob._checkOutputs`: for each requested key
look the output up in the array; push its data, or break at the first missing
key. -/
def localCheckLoop {α : Type} (outputs : List (JobOutput α)) :
    List String → List α
  | [] => []
  | key :: rest =>
      match outputs.find? (fun o => o.key == key) with
      | some output => output.data :: localCheckLoop outputs rest
      | none => []

/-- `LocalJob._checkOutputs`: returns the data values when every key was
found (i.e. the collected values are as many as the keys), else `null`. -/
def localCheckOutputs {α : Type} (outputs : List (JobOutput α))
    (keys : List String) : Option (List α) :=
  let values := localCheckLoop outputs keys
  if values.length = keys.length then some values else none

/-- The accumulation loop of `CloudJob._checkOutputs` over `outputsMap`. -/
def cloudCheckLoop {α : Type} (outputsMap : List (String × JobOutput α)) :
    List String → List α
  | [] => []
  | key :: rest =>
      match mapGet outputsMap key with
      | some output => output.data :: cloudCheckLoop outputsMap rest
      | none => []

/-- `CloudJob._checkOutputs`. -/
def cloudCheckOutputs {α : Type} (outputsMap : List (String × JobOutput α))
    (keys : List String) : Option (List α) :=
  let values := cloudCheckLoop outputsMap keys
  if values.length = keys.length then some values else none

/-! ## `Job.waitForOutputs` (job.ts)

The method subscribes `onOutput` / `onSuccess` / `onFail` on the bus, then
invokes `onOutput()` once immediately. Each handler is a no-op once `cleanup`
has removed it from the bus. The job's output cache is mutated before the
`output` notification fires (mutate-then-publish), so an `output` occurrence
carries the cache contents as the handler observes them. The concrete
`_checkOutputs` implementation is virtual; the model takes it as the `check`
parameter over an abstract cache type `κ`. -/

/-- An occurrence observed by a pending `waitForOutputs` promise. -/
inductive WEvent (κ : Type) where
  | output (cache : κ)
  | success
  | fail

/-- Settlement of the `waitForOutputs` promise: `resolve(values)` or
`reject(new Exception({ name, details: keys }))`. -/
inductive WOutcome (α : Type) where
  | resolved (values : List α)
  | rejected (name : String) (detailKeys : List String)
deriving DecidableEq, Repr

/-- State of one `waitForOutputs` call: the settlement (if any) and the three
bus subscriptions installed by the call. -/
structure WaitState (α : Type) where
  settled : Option (WOutcome α)
  subOutput : Bool
  subSuccess : Bool
  subFail : Bool
deriving DecidableEq, Repr

/-- The `cleanup()` closure: unsubscribe all three listeners. -/
def cleanupWait {α : Type} (s : WaitState α) : WaitState α :=
  { s with subOutput := false, subSuccess := false, subFail := false }

/-- State right after `new Promise` ran the executor body up to the three
subscriptions (before the immediate `onOutput()` call). -/
def waitInit {α : Type} : WaitState α :=
  { settled := none, subOutput := true, subSuccess := true, subFail := true }

/-- One occurrence delivered to the listeners of a `waitForOutputs` call.
A listener that has been unsubscribed no longer reacts. -/
def wStep {α κ : Type} (check : κ → List String → Option (List α))
    (keys : List String) (s : WaitState α) (e : WEvent κ) : WaitState α :=
  match e with
  | .output cache =>
      if s.subOutput then
        match check cache keys with
        | some values =>
            { cleanupWait s with settled := some (.resolved values) }
        | none => s
      else s
  | .success =>
      if s.subSuccess then
        { cleanupWait s with
          settled := some (.rejected "JobSuccessMissingOutputs" keys) }
      else s
  | .fail =>
      if s.subFail then
        { cleanupWait s with
          settled := some (.rejected "JobFailMissingOutputs" keys) }
      else s

/-- A full `waitForOutputs(...keys)` call: subscribe, invoke `onOutput()` once
against the cache as it is at call time, then react to the subsequent bus
occurrences. -/
def runWait {α κ : Type} (check : κ → List String → Option (List α))
    (keys : List String) (initCache : κ) (events : List (WEvent κ)) :
    WaitState α :=
  events.foldl (wStep check keys) (wStep check keys waitInit (.output initCache))

/-! ## `LocalFlowService.requestInputData` (overrides/flow.ts)

If the key already has a cached input its data is returned synchronously.
Otherwise the method registers an `input` listener, a `stateChanged` listener
and a timer, pushes the key onto `awaitingInputKeys`, transitions the job to
`awaitingInput` (which publishes `stateChanged`) and publishes
`awaitingInput(key)`. The pending promise then reacts to occurrences: a
matching `input` resolves it (removing the key from `awaitingInputKeys`
first), the timer firing rejects with `InputTimeout` carrying
`details: { key }`, and a `stateChanged` to any state other than
`awaitingInput` rejects with `AwaitingInputInterrupted` (no key in details).
Every settling branch runs `cleanup()` (clearTimeout plus both `off`s). -/

/-- Mutable state owned by `LocalFlowService`, plus the job state written
through `this.job._setState`. -/
structure LocalFlowState (α : Type) where
  inputs : List (JobInput α)
  outputs : List (JobOutput α)
  awaitingInputKeys : List String
  jobState : JobState
deriving DecidableEq, Repr

/-- Settlement of the pending input-request promise. Rejections carry the
exception name and the `details.key` value (`none` when details are absent,
as in the `AwaitingInputInterrupted` branch). -/
inductive InputReqOutcome (α : Type) where
  | resolved (data : α)
  | rejected (name : String) (detailKey : Option String)
deriving DecidableEq, Repr

/-- A pending input request: the requested key, the settlement if any, the
live timer, the two bus subscriptions, and the flow state it mutates. -/
structure PendingInputReq (α : Type) where
  key : String
  settledReq : Option (InputReqOutcome α)
  timerActive : Bool
  subInput : Bool
  subStateChanged : Bool
  flow : LocalFlowState α
deriving DecidableEq, Repr

/-- An occurrence observed by a pending input request: an `input` bus
notification, a `stateChanged` bus notification, or the timeout timer
firing. -/
inductive InputOcc (α : Type) where
  | input (key : String) (data : α)
  | stateChanged (newState : JobState)
  | timerFire
deriving DecidableEq, Repr

/-- The `cleanup()` closure of `requestInputData`: clearTimeout and
unsubscribe both listeners. -/
def reqCleanup {α : Type} (p : PendingInputReq α) : PendingInputReq α :=
  { p with timerActive := false, subInput := false, subStateChanged := false }

/-- One occurrence delivered to a pending input request. -/
def reqStep {α : Type} (p : PendingInputReq α) (o : InputOcc α) :
    PendingInputReq α :=
  match o with
  | .input key data =>
      if p.subInput then
        if key == p.key then
          let flow' := { p.flow with
            awaitingInputKeys :=
              p.flow.awaitingInputKeys.filter (fun k => k ≠ p.key) }
          { reqCleanup { p with flow := flow' } with
            settledReq := some (.resolved data) }
        else p
      else p
  | .stateChanged newState =>
      if p.subStateChanged then
        if newState ≠ JobState.awaitingInput then
          { reqCleanup p with
            settledReq := some (.rejected "AwaitingInputInterrupted" none) }
        else p
      else p
  | .timerFire =>
      if p.timerActive then
        { reqCleanup p with
          settledReq := some (.rejected "InputTimeout" (some p.key)) }
      else p

/-- Result of calling `requestInputData`: either a synchronous return of the
cached data (flow untouched, nothing published), or a pending request
together with the notifications published while setting it up. -/
inductive RequestInputResult (α : Type) where
  | immediate (data : α) (flow : LocalFlowState α) (notifs : List (BusNotif α))
  | pendingReq (p : PendingInputReq α) (notifs : List (BusNotif α))
deriving DecidableEq, Repr

/-- `LocalFlowService.requestInputData(key)`. -/
def requestInputData {α : Type} (flow : LocalFlowState α) (key : String) :
    RequestInputResult α :=
  match flow.inputs.find? (fun i => i.key == key) with
  | some existingInput => .immediate existingInput.data flow []
  | none =>
      let flow1 := { flow with
        awaitingInputKeys := flow.awaitingInputKeys ++ [key] }
      let prev := flow1.jobState
      let flow2 := { flow1 with jobState := JobState.awaitingInput }
      .pendingReq
        { key := key, settledReq := none, timerActive := true,
          subInput := true, subStateChanged := true, flow := flow2 }
        [BusNotif.stateChanged JobState.awaitingInput prev,
         BusNotif.awaitingInput key]

/-- Fold a pending input request over the occurrences delivered to it. -/
def runInputReq {α : Type} (p : PendingInputReq α) (occs : List (InputOcc α)) :
    PendingInputReq α :=
  occs.foldl reqStep p

/-! ## `Job.onAwaitingInput` (job.ts) and `Job._createJobEventHandler`

`onAwaitingInput(key, fn)` installs a handler on the `awaitingInput` channel:
on requested key `requestedKey`, when `key === '*' || requestedKey === key`
the callback runs with `requestedKey`; if its settled value is not
`undefined`, `submitInput(key, data)` is called — with the registration key,
including the literal `'*'`. A handler returning `undefined` is modelled by
`fn` returning `none`. -/

/-- Observable effect of one `awaitingInput` notification on a handler
registered through `onAwaitingInput`. -/
structure AwaitingInputEffect (α : Type) where
  invokedWith : Option String
  submitted : Option (String × α)
deriving DecidableEq, Repr

/-- The wrapper installed by `Job.onAwaitingInput(key, fn)`. -/
def onAwaitingInputHandle {α : Type} (key : String) (fn : String → Option α)
    (requestedKey : String) : AwaitingInputEffect α :=
  if key == "*" || requestedKey == key then
    match fn requestedKey with
    | some data => { invokedWith := some requestedKey,
                     submitted := some (key, data) }
    | none => { invokedWith := some requestedKey, submitted := none }
  else { invokedWith := none, submitted := none }

/-- Result of running a listener callback to settlement: it either returns
normally or throws/rejects with an exception. -/
inductive HandlerResult (ε : Type) where
  | ok
  | threw (e : ε)
deriving DecidableEq, Repr

/-- Where the exception of a failing listener callback ends up. `emit` of
eventemitter3 calls listeners synchronously and ignores their return value:
an exception thrown inside an `async` wrapper becomes a rejected promise that
nobody awaits. -/
structure WrapEffect (ε : Type) where
  propagatedToEmitter : Option ε
  busErrorEmitted : Option ε
  unhandledRejection : Option ε
deriving DecidableEq, Repr

/-- The `handler` wrapper of `Job._createJobEventHandler` in job.ts (current
class): the `try { await fn(...) } catch (error) { emit('error', error) }`
block is commented out in the source, so the wrapper is a bare
`async (...args) => { await fn(...args); }` — a throwing callback yields an
unawaited rejected promise, nothing reaches the bus. -/
def createJobEventHandlerWrap {ε : Type} (r : HandlerResult ε) : WrapEffect ε :=
  match r with
  | .ok => { propagatedToEmitter := none, busErrorEmitted := none,
             unhandledRejection := none }
  | .threw e => { propagatedToEmitter := none, busErrorEmitted := none,
                  unhandledRejection := some e }

/-- The `handler` wrapper of the legacy `Job` copy kept in robot.ts, where the
try/catch is present: a throwing callback is redirected to the bus `error`
channel. -/
def createJobEventHandlerWrapLegacy {ε : Type} (r : HandlerResult ε) :
    WrapEffect ε :=
  match r with
  | .ok => { propagatedToEmitter := none, busErrorEmitted := none,
             unhandledRejection := none }
  | .threw e => { propagatedToEmitter := none, busErrorEmitted := some e,
                  unhandledRejection := none }

/-! ## `LocalJob` script listeners (local-job.ts, latest version)

`_setupScriptListeners` wires the engine script events: on `success` it runs
`_setState(SUCCESS)` and emits `success`; on `fail` it runs `_setState(FAIL)`
and emits `fail` with `this.script?.$playback.error ?? Exception UnknownError`.
Neither branch assigns `this._error`, which stays as initialized. -/

/-- The `LocalJob` fields the listeners touch: `_state`, `_error`, and the
bus (observed as the list of published notifications). -/
structure LocalJobRec (α : Type) where
  state : JobState
  error : Option JobError
  notifs : List (BusNotif α)
deriving DecidableEq, Repr

/-- Fresh `LocalJob`: `_state = CREATED`, `_error = null`. -/
def localJobInit {α : Type} : LocalJobRec α :=
  { state := JobState.created, error := none, notifs := [] }

/-- `LocalJob._setState`: record previous state, store the new one, publish
`stateChanged(newState, previousState)`. -/
def localSetState {α : Type} (j : LocalJobRec α) (newState : JobState) :
    LocalJobRec α :=
  { j with state := newState,
           notifs := j.notifs ++ [BusNotif.stateChanged newState j.state] }

/-- The script `success` listener of `_setupScriptListeners`. -/
def onScriptSuccess {α : Type} (j : LocalJobRec α) : LocalJobRec α :=
  let j1 := localSetState j JobState.success
  { j1 with notifs := j1.notifs ++ [BusNotif.success] }

/-- The script `fail` listener of `_setupScriptListeners`.
`playbackErrorName` is the name of `this.script?.$playback.error`, replaced
by `UnknownError` when the engine reported none. Note: `this._error` is not
assigned. -/
def onScriptFail {α : Type} (j : LocalJobRec α)
    (playbackErrorName : Option String) : LocalJobRec α :=
  let j1 := localSetState j JobState.fail
  { j1 with notifs :=
      j1.notifs ++ [BusNotif.fail (playbackErrorName.getD "UnknownError")] }

/-- `LocalJob.getErrorInfo`: returns `this._error`. -/
def localGetErrorInfo {α : Type} (j : LocalJobRec α) : Option JobError :=
  j.error

/-! ## `CloudJob` (cloud driver, latest version)

`_track` polls `api.getJobEvents(jobId, offset)`, advances the cursor by
`events.length`, translates each event via `_processJobEvent` in order, then
returns when local state is `success` and throws the translated error when it
is `fail`; otherwise it sleeps and polls again. The remote service serves
`GET /jobs/:id/events?offset=N` as the events from position `N` of the job's
event log (the reference mock serves `events.slice(offset)`), so one poll
returning `b` events is `(log.drop offset).take b`. The remote lookups
performed while translating (`getJobOutputData`, which yields `null` on a
remote 404, and the `error` payload of `GET /jobs/:id`) are the `AcApi`
environment. Wall-clock output timestamps (used only by `resubmitInput` /
`_resetIfNeeded`, outside every claim) are omitted. -/

/-- AcJobEventName union of ac-api.ts. -/
inductive AcEventName where
  | awaitingInput
  | createOutput
  | processing
  | success
  | fail
  | restart
  | tdsStart
  | tdsFinish
deriving DecidableEq, Repr

/-- A remote job event. In the source `key` is optional and read through the
non-null assertion `jobEvent.key!`; events that carry no key are modelled
with `""` (the switch never reads `key` for them). -/
structure AcJobEvent where
  name : AcEventName
  key : String
deriving DecidableEq, Repr

/-- The possibly-partial `error` payload of `GET /jobs/:id`. -/
structure RemoteJobError where
  category : Option String
  code : Option String
  message : Option String
deriving DecidableEq, Repr

/-- Normalization performed by the `fail` case of `_processJobEvent`:
`{ category: 'server', code: 'UnknownError', message: 'Unknown error',
...error }` — present fields of the remote payload override the defaults. -/
def normalizeError (e : Option RemoteJobError) : JobError :=
  match e with
  | none => { category := "server", code := "UnknownError",
              message := "Unknown error" }
  | some r => { category := r.category.getD "server",
                code := r.code.getD "UnknownError",
                message := r.message.getD "Unknown error" }

/-- The remote lookups `_processJobEvent` performs: output data by key
(`none` models the remote 404) and the error payload of the job resource. -/
structure AcApi (α : Type) where
  outputData : String → Option α
  jobError : Option RemoteJobError

/-- The `CloudJob` fields the tracking loop touches, with the bus observed as
the list of published notifications. -/
structure CloudState (α : Type) where
  state : JobState
  error : Option JobError
  awaitingInputKey : Option String
  outputsMap : List (String × JobOutput α)
  inputsMap : List (String × JobInput α)
  notifs : List (BusNotif α)
deriving DecidableEq, Repr

/-- Fresh `CloudJob` field values (initializers of the class body). -/
def cloudInit {α : Type} : CloudState α :=
  { state := JobState.created, error := none, awaitingInputKey := none,
    outputsMap := [], inputsMap := [], notifs := [] }

/-- `CloudJob._setState`. -/
def cloudSetState {α : Type} (s : CloudState α) (newState : JobState) :
    CloudState α :=
  { s with state := newState,
           notifs := s.notifs ++ [BusNotif.stateChanged newState s.state] }

/-- `CloudJob._processJobEvent`. -/
def processJobEvent {α : Type} (api : AcApi α) (s : CloudState α)
    (jobEvent : AcJobEvent) : CloudState α :=
  let key := jobEvent.key
  match jobEvent.name with
  | .awaitingInput =>
      let s1 := cloudSetState s JobState.awaitingInput
      let s2 := { s1 with awaitingInputKey := some key }
      { s2 with notifs := s2.notifs ++ [BusNotif.awaitingInput key] }
  | .createOutput =>
      match api.outputData key with
      | some data =>
          { s with
            outputsMap := mapSet s.outputsMap key { key := key, data := data },
            notifs := s.notifs ++ [BusNotif.output key data] }
      | none => s
  | .processing => cloudSetState s JobState.processing
  | .success =>
      let s1 := cloudSetState s JobState.success
      { s1 with notifs := s1.notifs ++ [BusNotif.success] }
  | .fail =>
      let err := normalizeError api.jobError
      let s1 := cloudSetState s JobState.fail
      let s2 := { s1 with error := some err }
      { s2 with notifs := s2.notifs ++ [BusNotif.fail err.code] }
  | .restart => s
  | .tdsStart => s
  | .tdsFinish => s

/-- How one run of `_track` ended: returned normally (state `success`), threw
the translated error (state `fail`), or the modelled poll schedule ran out
with the loop still going. -/
inductive TrackExit where
  | finished
  | failed (exceptionName : String)
  | exhausted
deriving DecidableEq, Repr

/-- Observable result of a `_track` run: final job state, final cursor, the
(cursor, batch length) pair of every poll performed, the remote events
consumed in processing order, and how the loop ended. -/
structure TrackResult (α : Type) where
  final : CloudState α
  offset : Nat
  polls : List (Nat × Nat)
  consumed : List AcJobEvent
  exit : TrackExit
deriving Repr

/-- `CloudJob._track` against a fixed remote event log. `batches` is the
number of events the service returns at each successive poll (capped by the
events available past the cursor); the recursion runs the loop for that many
polls at most, stopping early on a terminal state exactly as the code does
after processing a batch. -/
def trackFrom {α : Type} (api : AcApi α) (log : List AcJobEvent)
    (s : CloudState α) (offset : Nat) : List Nat → TrackResult α
  | [] => { final := s, offset := offset, polls := [], consumed := [],
            exit := .exhausted }
  | b :: bs =>
      let events := (log.drop offset).take b
      let offset' := offset + events.length
      let s' := events.foldl (processJobEvent api) s
      match s'.state with
      | JobState.success =>
          { final := s', offset := offset', polls := [(offset, events.length)],
            consumed := events, exit := .finished }
      | JobState.fail =>
          { final := s', offset := offset', polls := [(offset, events.length)],
            consumed := events,
            exit := .failed ((s'.error.map JobError.code).getD "UnknownError") }
      | _ =>
          let r := trackFrom api log s' offset' bs
          { final := r.final, offset := r.offset,
            polls := (offset, events.length) :: r.polls,
            consumed := events ++ r.consumed, exit := r.exit }

/-- `CloudJob.submitInput`: POST the input, then cache it. Note it does not
touch `awaitingInputKey`. -/
def cloudSubmitInput {α : Type} (s : CloudState α) (key : String) (data : α) :
    CloudState α :=
  { s with inputsMap := mapSet s.inputsMap key { key := key, data := data } }

/-- `CloudJob.getErrorInfo`. -/
def cloudGetErrorInfo {α : Type} (s : CloudState α) : Option JobError :=
  s.error

/-! ## Job creation defaults (robot.ts / CloudJob constructor)

`Robot.createJob(options = {})` calls
`this._createJob({ category: JobCategory.TEST, input: {}, ...options })`,
and the `CloudJob` constructor stores
`this._initParams = { category: JobCategory.TEST, input: {}, ...params }`:
fields present in the caller-supplied partial override the defaults. The
`input` object is modelled as a list of key/value entries. -/

/-- JobInitParams of job.ts. -/
structure JobInitParams (α : Type) where
  category : JobCategory
  input : List (String × α)
deriving DecidableEq, Repr

/-- `Partial JobInitParams`: each field possibly absent. -/
structure PartialJobInitParams (α : Type) where
  category : Option JobCategory
  input : Option (List (String × α))
deriving DecidableEq, Repr

/-- The spread merge `{ category: JobCategory.TEST, input: {}, ...options }`
shared by `Robot.createJob` and the `CloudJob` constructor. -/
def mergeJobInitParams {α : Type} (options : PartialJobInitParams α) :
    JobInitParams α :=
  { category := options.category.getD JobCategory.test,
    input := options.input.getD [] }

/-- Constructing a `CloudJob`: the field initializers plus the stored
`_initParams`. -/
def cloudJobNew {α : Type} (params : PartialJobInitParams α) :
    CloudState α × JobInitParams α :=
  (cloudInit, mergeJobInitParams params)

/-- Adjacency of the per-poll cursor records of a `_track` run: each poll
starts at the cursor left by the previous one, and the cursor after a poll is
the cursor before it plus the number of events that poll returned. -/
def pollsChain : Nat → List (Nat × Nat) → Nat → Prop
  | start, [], fin => fin = start
  | start, (o, n) :: ps, fin => o = start ∧ pollsChain (start + n) ps fin

/-! ## Race lemmas for the pending input request of `requestInputData` -/

/-- A pending input request between setup and settlement: unsettled, timer
live, both listeners installed. -/
def reqReady {α : Type} (p : PendingInputReq α) : Prop :=
  p.settledReq = none ∧ p.timerActive = true ∧ p.subInput = true ∧
    p.subStateChanged = true

/-- A pending input request after a settling branch ran `cleanup()`. -/
def reqDone {α : Type} (p : PendingInputReq α) : Prop :=
  p.settledReq.isSome = true ∧ p.timerActive = false ∧ p.subInput = false ∧
    p.subStateChanged = false


/-! ## Race lemmas for the `waitForOutputs` listener machinery -/

/-- A `waitForOutputs` state between subscription and settlement: unsettled,
all three listeners installed. -/
def waitReady {α : Type} (s : WaitState α) : Prop :=
  s.settled = none ∧ s.subOutput = true ∧ s.subSuccess = true ∧ s.subFail = true

/-- A `waitForOutputs` state after a settling branch ran: settled, and
`cleanup()` removed all three listeners. -/
def waitDone {α : Type} (s : WaitState α) : Prop :=
  s.settled.isSome = true ∧ s.subOutput = false ∧ s.subSuccess = false ∧
    s.subFail = false

lemma wStep_done_fix {α κ : Type} (check : κ → List String → Option (List α))
    (keys : List String) (s : WaitState α) (e : WEvent κ)
    (h : s.subOutput = false ∧ s.subSuccess = false ∧ s.subFail = false) :
    wStep check keys s e = s := by
  obtain ⟨h1, h2, h3⟩ := h
  cases e <;> simp [wStep, h1, h2, h3]

lemma wFold_done_fix {α κ : Type} (check : κ → List String → Option (List α))
    (keys : List String) (s : WaitState α) (l : List (WEvent κ))
    (h : s.subOutput = false ∧ s.subSuccess = false ∧ s.subFail = false) :
    List.foldl (wStep check keys) s l = s := by
  induction l with
  | nil => rfl
  | cons e l ih => rw [List.foldl_cons, wStep_done_fix check keys s e h, ih]

lemma wStep_pres {α κ : Type} (check : κ → List String → Option (List α))
    (keys : List String) (s : WaitState α) (e : WEvent κ)
    (h : waitReady s ∨ waitDone s) :
    waitReady (wStep check keys s e) ∨ waitDone (wStep check keys s e) := by
  rcases h with h | h
  · obtain ⟨h0, h1, h2, h3⟩ := h
    cases e with
    | output cache =>
        cases hc : check cache keys with
        | none =>
            left
            simp [wStep, h1, hc]
            exact ⟨h0, h1, h2, h3⟩
        | some v =>
            right
            simp [wStep, h1, hc, waitDone, cleanupWait]
    | success =>
        right
        simp [wStep, h2, waitDone, cleanupWait]
    | fail =>
        right
        simp [wStep, h3, waitDone, cleanupWait]
  · right
    rw [wStep_done_fix check keys s e ⟨h.2.1, h.2.2.1, h.2.2.2⟩]
    exact h

lemma wFold_pres {α κ : Type} (check : κ → List String → Option (List α))
    (keys : List String) (s : WaitState α) (l : List (WEvent κ))
    (h : waitReady s ∨ waitDone s) :
    waitReady (List.foldl (wStep check keys) s l) ∨
      waitDone (List.foldl (wStep check keys) s l) := by
  induction l generalizing s with
  | nil => exact h
  | cons e l ih =>
      rw [List.foldl_cons]
      exact ih (wStep check keys s e) (wStep_pres check keys s e h)

lemma wFold_settled_shape {α κ : Type}
    (check : κ → List String → Option (List α)) (keys : List String)
    (s : WaitState α) (l : List (WEvent κ)) (h : waitReady s)
    (o : WOutcome α)
    (ho : (List.foldl (wStep check keys) s l).settled = some o) :
    (∃ cache v, WEvent.output cache ∈ l ∧ check cache keys = some v ∧
        o = WOutcome.resolved v) ∨
      o = WOutcome.rejected "JobSuccessMissingOutputs" keys ∨
      o = WOutcome.rejected "JobFailMissingOutputs" keys := by
  induction l generalizing s with
  | nil =>
      rw [List.foldl_nil, h.1] at ho
      exact absurd ho (by simp)
  | cons e l ih =>
      obtain ⟨h0, h1, h2, h3⟩ := h
      rw [List.foldl_cons] at ho
      cases e with
      | output cache =>
          cases hc : check cache keys with
          | none =>
              have hfix : wStep check keys s (WEvent.output cache) = s := by
                simp [wStep, h1, hc]
              rw [hfix] at ho
              rcases ih s ⟨h0, h1, h2, h3⟩ ho with ⟨c, v, hm, hcv, hov⟩ | h | h
              · exact Or.inl ⟨c, v, List.mem_cons_of_mem _ hm, hcv, hov⟩
              · exact Or.inr (Or.inl h)
              · exact Or.inr (Or.inr h)
          | some v =>
              have hset : wStep check keys s (WEvent.output cache) =
                  { cleanupWait s with settled := some (WOutcome.resolved v) } := by
                simp [wStep, h1, hc]
              rw [hset, wFold_done_fix check keys _ l (by simp [cleanupWait])]
                at ho
              simp only at ho
              refine Or.inl ⟨cache, v, List.mem_cons_self _ _, hc, ?_⟩
              exact (Option.some_inj.mp ho).symm
      | success =>
          have hset : wStep check keys s WEvent.success =
              { cleanupWait s with
                settled := some (WOutcome.rejected "JobSuccessMissingOutputs" keys) } := by
            simp [wStep, h2]
          rw [hset, wFold_done_fix check keys _ l (by simp [cleanupWait])] at ho
          simp only at ho
          exact Or.inr (Or.inl (Option.some_inj.mp ho).symm)
      | fail =>
          have hset : wStep check keys s WEvent.fail =
              { cleanupWait s with
                settled := some (WOutcome.rejected "JobFailMissingOutputs" keys) } := by
            simp [wStep, h3]
          rw [hset, wFold_done_fix check keys _ l (by simp [cleanupWait])] at ho
          simp only at ho
          exact Or.inr (Or.inr (Option.some_inj.mp ho).symm)

/-! ## `_checkOutputs` under the all-keys-present hypothesis -/

lemma localCheckLoop_length {α : Type} (outputs : List (JobOutput α))
    (keys : List String)
    (h : ∀ k ∈ keys, (outputs.find? (fun o => o.key == k)).isSome = true) :
    (localCheckLoop outputs keys).length = keys.length := by
  induction keys with
  | nil => rfl
  | cons k rest ih =>
      obtain ⟨output, ho⟩ :=
        Option.isSome_iff_exists.mp (h k (List.mem_cons_self k rest))
      simp only [localCheckLoop, ho, List.length_cons]
      exact congrArg Nat.succ (ih (fun x hx => h x (List.mem_cons_of_mem k hx)))

lemma localCheckLoop_get? {α : Type} (outputs : List (JobOutput α))
    (keys : List String)
    (h : ∀ k ∈ keys, (outputs.find? (fun o => o.key == k)).isSome = true)
    (i : Nat) :
    (localCheckLoop outputs keys).get? i =
      (keys.get? i).bind
        (fun k => (outputs.find? (fun o => o.key == k)).map JobOutput.data) := by
  induction keys generalizing i with
  | nil => simp [localCheckLoop]
  | cons k rest ih =>
      obtain ⟨output, ho⟩ :=
        Option.isSome_iff_exists.mp (h k (List.mem_cons_self k rest))
      cases i with
      | zero => simp [localCheckLoop, ho]
      | succ j =>
          simp only [localCheckLoop, ho, List.get?_cons_succ]
          exact ih (fun x hx => h x (List.mem_cons_of_mem k hx)) j

lemma localCheckOutputs_some {α : Type} (outputs : List (JobOutput α))
    (keys : List String)
    (h : ∀ k ∈ keys, (outputs.find? (fun o => o.key == k)).isSome = true) :
    localCheckOutputs outputs keys = some (localCheckLoop outputs keys) := by
  simp [localCheckOutputs, localCheckLoop_length outputs keys h]

/-- C1: if every requested key is present in the output cache at the time of
the `waitForOutputs(...keys)` call, the promise resolves without waiting for
any further notification, with the cached data values in exactly the order of
the requested keys; duplicated keys yield the same value at each of their
positions, and later bus events cannot change the settlement. -/
theorem waitForOutputs_immediate_when_cached {α : Type}
    (outputs : List (JobOutput α)) (keys : List String)
    (h : ∀ k ∈ keys, (outputs.find? (fun o => o.key == k)).isSome = true) :
    ∃ values : List α,
      (runWait localCheckOutputs keys outputs []).settled
          = some (WOutcome.resolved values) ∧
      values.length = keys.length ∧
      (∀ i : Nat, values.get? i =
        (keys.get? i).bind
          (fun k => (outputs.find? (fun o => o.key == k)).map JobOutput.data)) ∧
      (∀ i j : Nat, keys.get? i = keys.get? j →
        values.get? i = values.get? j) ∧
      (∀ events : List (WEvent (List (JobOutput α))),
        (runWait localCheckOutputs keys outputs events).settled
          = some (WOutcome.resolved values)) := by
  refine ⟨localCheckLoop outputs keys, ?_, localCheckLoop_length outputs keys h,
    localCheckLoop_get? outputs keys h, ?_, ?_⟩
  · show (wStep localCheckOutputs keys waitInit (WEvent.output outputs)).settled
        = some (WOutcome.resolved (localCheckLoop outputs keys))
    simp [wStep, waitInit, localCheckOutputs_some outputs keys h]
  · intro i j hij
    rw [localCheckLoop_get? outputs keys h i, localCheckLoop_get? outputs keys h j,
      hij]
  · intro events
    show (List.foldl (wStep localCheckOutputs keys)
        (wStep localCheckOutputs keys waitInit (WEvent.output outputs))
        events).settled = _
    have hset : wStep localCheckOutputs keys waitInit (WEvent.output outputs) =
        { cleanupWait (waitInit (α := α)) with
          settled := some (WOutcome.resolved (localCheckLoop outputs keys)) } := by
      simp [wStep, waitInit, localCheckOutputs_some outputs keys h]
    rw [hset, wFold_done_fix localCheckOutputs keys _ events
      (by simp [cleanupWait])]

/-- C1 witness: a cache holding outputs `a` and `b` resolves the request for
keys `a`, `b`, `a` immediately with the data in request order, the duplicate
position repeating the value. -/
theorem waitForOutputs_immediate_when_cached_witness :
    (runWait localCheckOutputs ["a", "b", "a"]
        [JobOutput.mk "a" (1 : Nat), JobOutput.mk "b" 2] []).settled
      = some (WOutcome.resolved [1, 2, 1]) := by
  obtain ⟨values, h1, h2, h3, -, -⟩ :=
    waitForOutputs_immediate_when_cached
      [JobOutput.mk "a" (1 : Nat), JobOutput.mk "b" 2] ["a", "b", "a"]
      (by decide)
  have e0 : values.get? 0 = some 1 := by rw [h3 0]; rfl
  have e1 : values.get? 1 = some 2 := by rw [h3 1]; rfl
  have e2 : values.get? 2 = some 1 := by rw [h3 2]; rfl
  match values, h2 with
  | [x, y, z], _ =>
      simp only [List.get?] at e0 e1 e2
      rw [Option.some_inj.mp e0, Option.some_inj.mp e1, Option.some_inj.mp e2]
        at h1
      exact h1

/-- C2: a `waitForOutputs(...keys)` call settles in at most one of exactly
three ways — resolution with the checked values, rejection named
`JobSuccessMissingOutputs` with details `{ keys }`, or rejection named
`JobFailMissingOutputs` with details `{ keys }`; a `success` (resp. `fail`)
notification arriving while the call is unsettled forces the corresponding
rejection, an `output` notification whose cache passes the check forces
resolution, every settlement removes all three bus listeners, and a settled
call is immune to all later events. Stated against `cloudCheckOutputs`
(`CloudJob._checkOutputs`). -/
theorem waitForOutputs_three_outcome_race {α : Type}
    (cache : List (String × JobOutput α)) (keys : List String)
    (events : List (WEvent (List (String × JobOutput α)))) :
    (∀ name dk, (runWait cloudCheckOutputs keys cache events).settled
          = some (WOutcome.rejected name dk) →
        (name = "JobSuccessMissingOutputs" ∨ name = "JobFailMissingOutputs") ∧
          dk = keys) ∧
    (∀ v, (runWait cloudCheckOutputs keys cache events).settled
          = some (WOutcome.resolved v) →
        ∃ c, (c = cache ∨ WEvent.output c ∈ events) ∧
          cloudCheckOutputs c keys = some v) ∧
    ((runWait cloudCheckOutputs keys cache events).settled.isSome = true →
        (runWait cloudCheckOutputs keys cache events).subOutput = false ∧
        (runWait cloudCheckOutputs keys cache events).subSuccess = false ∧
        (runWait cloudCheckOutputs keys cache events).subFail = false) ∧
    ((runWait cloudCheckOutputs keys cache events).settled = none →
        (runWait cloudCheckOutputs keys cache events).subOutput = true ∧
        (runWait cloudCheckOutputs keys cache events).subSuccess = true ∧
        (runWait cloudCheckOutputs keys cache events).subFail = true) ∧
    (∀ pre post, events = pre ++ WEvent.success :: post →
        (runWait cloudCheckOutputs keys cache pre).settled = none →
        (runWait cloudCheckOutputs keys cache events).settled
          = some (WOutcome.rejected "JobSuccessMissingOutputs" keys)) ∧
    (∀ pre post, events = pre ++ WEvent.fail :: post →
        (runWait cloudCheckOutputs keys cache pre).settled = none →
        (runWait cloudCheckOutputs keys cache events).settled
          = some (WOutcome.rejected "JobFailMissingOutputs" keys)) ∧
    (∀ pre c post v, events = pre ++ WEvent.output c :: post →
        (runWait cloudCheckOutputs keys cache pre).settled = none →
        cloudCheckOutputs c keys = some v →
        (runWait cloudCheckOutputs keys cache events).settled
          = some (WOutcome.resolved v)) ∧
    (∀ more, (runWait cloudCheckOutputs keys cache events).settled.isSome = true →
        (runWait cloudCheckOutputs keys cache (events ++ more)).settled
          = (runWait cloudCheckOutputs keys cache events).settled) := by
  have hinitready : waitReady (waitInit (α := α)) := ⟨rfl, rfl, rfl, rfl⟩
  have hs0 : waitReady (wStep cloudCheckOutputs keys waitInit
        (WEvent.output cache)) ∨
      waitDone (wStep cloudCheckOutputs keys waitInit (WEvent.output cache)) :=
    wStep_pres cloudCheckOutputs keys waitInit (WEvent.output cache)
      (Or.inl hinitready)
  have hdich : ∀ l : List (WEvent (List (String × JobOutput α))),
      waitReady (runWait cloudCheckOutputs keys cache l) ∨
        waitDone (runWait cloudCheckOutputs keys cache l) := by
    intro l
    exact wFold_pres cloudCheckOutputs keys _ l hs0
  have happend : ∀ (l m : List (WEvent (List (String × JobOutput α)))),
      runWait cloudCheckOutputs keys cache (l ++ m)
        = List.foldl (wStep cloudCheckOutputs keys)
            (runWait cloudCheckOutputs keys cache l) m := by
    intro l m
    simp [runWait, List.foldl_append]
  have hreadypre : ∀ l : List (WEvent (List (String × JobOutput α))),
      (runWait cloudCheckOutputs keys cache l).settled = none →
      waitReady (runWait cloudCheckOutputs keys cache l) := by
    intro l hl
    rcases hdich l with h | h
    · exact h
    · have hsome := h.1
      rw [hl] at hsome
      exact absurd hsome (by simp)
  refine ⟨?_, ?_, ?_, ?_, ?_, ?_, ?_, ?_⟩
  · intro name dk hrej
    cases hc : cloudCheckOutputs cache keys with
    | some v =>
        have hs0eq : wStep cloudCheckOutputs keys waitInit
            (WEvent.output cache) =
            { cleanupWait (waitInit (α := α)) with
              settled := some (WOutcome.resolved v) } := by
          simp [wStep, waitInit, hc]
        have : runWait cloudCheckOutputs keys cache events =
            { cleanupWait (waitInit (α := α)) with
              settled := some (WOutcome.resolved v) } := by
          show List.foldl (wStep cloudCheckOutputs keys) _ events = _
          rw [hs0eq, wFold_done_fix cloudCheckOutputs keys _ events
            (by simp [cleanupWait])]
        rw [this] at hrej
        simp only at hrej
        exact absurd (Option.some_inj.mp hrej) (by simp)
    | none =>
        have hs0eq : wStep cloudCheckOutputs keys waitInit
            (WEvent.output cache) = waitInit := by
          simp [wStep, waitInit, hc]
        have hsh := wFold_settled_shape cloudCheckOutputs keys waitInit events
          hinitready (WOutcome.rejected name dk)
          (by
            have : runWait cloudCheckOutputs keys cache events =
                List.foldl (wStep cloudCheckOutputs keys) waitInit events := by
              show List.foldl (wStep cloudCheckOutputs keys) _ events = _
              rw [hs0eq]
            rw [this] at hrej
            exact hrej)
        rcases hsh with ⟨c, v, _, _, hov⟩ | h | h
        · exact absurd hov (by simp)
        · have := (WOutcome.rejected.injEq _ _ _ _).mp h
          exact ⟨Or.inl this.1, this.2⟩
        · have := (WOutcome.rejected.injEq _ _ _ _).mp h
          exact ⟨Or.inr this.1, this.2⟩
  · intro v hres
    cases hc : cloudCheckOutputs cache keys with
    | some w =>
        have hs0eq : wStep cloudCheckOutputs keys waitInit
            (WEvent.output cache) =
            { cleanupWait (waitInit (α := α)) with
              settled := some (WOutcome.resolved w) } := by
          simp [wStep, waitInit, hc]
        have hall : runWait cloudCheckOutputs keys cache events =
            { cleanupWait (waitInit (α := α)) with
              settled := some (WOutcome.resolved w) } := by
          show List.foldl (wStep cloudCheckOutputs keys) _ events = _
          rw [hs0eq, wFold_done_fix cloudCheckOutputs keys _ events
            (by simp [cleanupWait])]
        rw [hall] at hres
        simp only at hres
        have hv : w = v := by
          have := Option.some_inj.mp hres
          exact ((WOutcome.resolved.injEq _ _).mp this)
        exact ⟨cache, Or.inl rfl, by rw [hc, hv]⟩
    | none =>
        have hs0eq : wStep cloudCheckOutputs keys waitInit
            (WEvent.output cache) = waitInit := by
          simp [wStep, waitInit, hc]
        have hsh := wFold_settled_shape cloudCheckOutputs keys waitInit events
          hinitready (WOutcome.resolved v)
          (by
            have : runWait cloudCheckOutputs keys cache events =
                List.foldl (wStep cloudCheckOutputs keys) waitInit events := by
              show List.foldl (wStep cloudCheckOutputs keys) _ events = _
              rw [hs0eq]
            rw [this] at hres
            exact hres)
        rcases hsh with ⟨c, w, hm, hcw, hov⟩ | h | h
        · have hv : w = v := (WOutcome.resolved.injEq _ _).mp hov.symm
          exact ⟨c, Or.inr hm, by rw [hcw, hv]⟩
        · exact absurd h (by simp)
        · exact absurd h (by simp)
  · intro hsome
    rcases hdich events with h | h
    · rw [h.1] at hsome
      exact absurd hsome (by simp)
    · exact ⟨h.2.1, h.2.2.1, h.2.2.2⟩
  · intro hnone
    exact ⟨(hreadypre events hnone).2.1, (hreadypre events hnone).2.2.1,
      (hreadypre events hnone).2.2.2⟩
  · intro pre post hev hpre
    subst hev
    have hready := hreadypre pre hpre
    rw [show pre ++ WEvent.success :: post
        = (pre ++ [WEvent.success]) ++ post by simp, happend, happend]
    rw [List.foldl_cons, List.foldl_nil]
    have hset : wStep cloudCheckOutputs keys
        (runWait cloudCheckOutputs keys cache pre) WEvent.success =
        { cleanupWait (runWait cloudCheckOutputs keys cache pre) with
          settled := some (WOutcome.rejected "JobSuccessMissingOutputs" keys) } := by
      simp [wStep, hready.2.2.1]
    rw [hset, wFold_done_fix cloudCheckOutputs keys _ post
      (by simp [cleanupWait])]
  · intro pre post hev hpre
    subst hev
    have hready := hreadypre pre hpre
    rw [show pre ++ WEvent.fail :: post
        = (pre ++ [WEvent.fail]) ++ post by simp, happend, happend]
    rw [List.foldl_cons, List.foldl_nil]
    have hset : wStep cloudCheckOutputs keys
        (runWait cloudCheckOutputs keys cache pre) WEvent.fail =
        { cleanupWait (runWait cloudCheckOutputs keys cache pre) with
          settled := some (WOutcome.rejected "JobFailMissingOutputs" keys) } := by
      simp [wStep, hready.2.2.2]
    rw [hset, wFold_done_fix cloudCheckOutputs keys _ post
      (by simp [cleanupWait])]
  · intro pre c post v hev hpre hcv
    subst hev
    have hready := hreadypre pre hpre
    rw [show pre ++ WEvent.output c :: post
        = (pre ++ [WEvent.output c]) ++ post by simp, happend, happend]
    rw [List.foldl_cons, List.foldl_nil]
    have hset : wStep cloudCheckOutputs keys
        (runWait cloudCheckOutputs keys cache pre) (WEvent.output c) =
        { cleanupWait (runWait cloudCheckOutputs keys cache pre) with
          settled := some (WOutcome.resolved v) } := by
      simp [wStep, hready.2.1, hcv]
    rw [hset, wFold_done_fix cloudCheckOutputs keys _ post
      (by simp [cleanupWait])]
  · intro more hsome
    rcases hdich events with h | h
    · rw [h.1] at hsome
      exact absurd hsome (by simp)
    · rw [happend, wFold_done_fix cloudCheckOutputs keys _ more
        ⟨h.2.1, h.2.2.1, h.2.2.2⟩]

/-- C2 witness: with an empty output cache and a single `success`
notification, the call rejects with `JobSuccessMissingOutputs` carrying the
requested keys. -/
theorem waitForOutputs_three_outcome_race_witness :
    (runWait cloudCheckOutputs ["x"] ([] : List (String × JobOutput Nat))
        [WEvent.success]).settled
      = some (WOutcome.rejected "JobSuccessMissingOutputs" ["x"]) := by
  exact (waitForOutputs_three_outcome_race
      ([] : List (String × JobOutput Nat)) ["x"]
      [WEvent.success]).2.2.2.2.1 [] [] rfl (by decide)

lemma reqStep_done_fix {α : Type} (p : PendingInputReq α) (o : InputOcc α)
    (h : p.timerActive = false ∧ p.subInput = false ∧ p.subStateChanged = false) :
    reqStep p o = p := by
  obtain ⟨h1, h2, h3⟩ := h
  cases o <;> simp [reqStep, h1, h2, h3]

lemma reqFold_done_fix {α : Type} (p : PendingInputReq α)
    (l : List (InputOcc α))
    (h : p.timerActive = false ∧ p.subInput = false ∧ p.subStateChanged = false) :
    List.foldl reqStep p l = p := by
  induction l with
  | nil => rfl
  | cons o l ih => rw [List.foldl_cons, reqStep_done_fix p o h, ih]

lemma reqStep_pres {α : Type} (p : PendingInputReq α) (o : InputOcc α)
    (h : reqReady p ∨ reqDone p) :
    reqReady (reqStep p o) ∨ reqDone (reqStep p o) := by
  rcases h with h | h
  · obtain ⟨h0, h1, h2, h3⟩ := h
    cases o with
    | input key data =>
        by_cases hk : (key == p.key) = true
        · right
          simp [reqStep, h2, hk, reqDone, reqCleanup]
        · left
          simp only [reqStep, h2, if_true, hk, if_false]
          exact ⟨h0, h1, h2, h3⟩
    | stateChanged newState =>
        by_cases hs : newState = JobState.awaitingInput
        · left
          simp only [reqStep, h3, if_true, hs]
          simp only [ne_eq, not_true_eq_false, if_false]
          exact ⟨h0, h1, h2, h3⟩
        · right
          simp [reqStep, h3, hs, reqDone, reqCleanup]
    | timerFire =>
        right
        simp [reqStep, h1, reqDone, reqCleanup]
  · right
    rw [reqStep_done_fix p o ⟨h.2.1, h.2.2.1, h.2.2.2⟩]
    exact h

lemma reqFold_pres {α : Type} (p : PendingInputReq α) (l : List (InputOcc α))
    (h : reqReady p ∨ reqDone p) :
    reqReady (List.foldl reqStep p l) ∨ reqDone (List.foldl reqStep p l) := by
  induction l generalizing p with
  | nil => exact h
  | cons o l ih =>
      rw [List.foldl_cons]
      exact ih (reqStep p o) (reqStep_pres p o h)

lemma reqStep_key_fixed {α : Type} (p : PendingInputReq α) (o : InputOcc α) :
    (reqStep p o).key = p.key := by
  cases o with
  | input key data =>
      by_cases h2 : p.subInput = true
      · by_cases hk : (key == p.key) = true
        · simp [reqStep, h2, hk, reqCleanup]
        · simp [reqStep, h2, hk]
      · simp [reqStep, Bool.eq_false_iff.mpr h2,
          show p.subInput = false from by revert h2; cases p.subInput <;> simp]
  | stateChanged newState =>
      by_cases h3 : p.subStateChanged = true
      · by_cases hs : newState = JobState.awaitingInput
        · simp [reqStep, h3, hs]
        · simp [reqStep, h3, hs, reqCleanup]
      · simp [reqStep, show p.subStateChanged = false from by
          revert h3; cases p.subStateChanged <;> simp]
  | timerFire =>
      by_cases h1 : p.timerActive = true
      · simp [reqStep, h1, reqCleanup]
      · simp [reqStep, show p.timerActive = false from by
          revert h1; cases p.timerActive <;> simp]

lemma reqFold_key_fixed {α : Type} (p : PendingInputReq α)
    (l : List (InputOcc α)) :
    (List.foldl reqStep p l).key = p.key := by
  induction l generalizing p with
  | nil => rfl
  | cons o l ih => rw [List.foldl_cons, ih, reqStep_key_fixed]

lemma reqFold_settled_shape {α : Type} (p : PendingInputReq α)
    (l : List (InputOcc α)) (h : reqReady p) (o : InputReqOutcome α)
    (ho : (List.foldl reqStep p l).settledReq = some o) :
    (∃ d, InputOcc.input p.key d ∈ l ∧ o = InputReqOutcome.resolved d) ∨
      o = InputReqOutcome.rejected "InputTimeout" (some p.key) ∨
      o = InputReqOutcome.rejected "AwaitingInputInterrupted" none := by
  induction l generalizing p with
  | nil =>
      rw [List.foldl_nil, h.1] at ho
      exact absurd ho (by simp)
  | cons e l ih =>
      obtain ⟨h0, h1, h2, h3⟩ := h
      rw [List.foldl_cons] at ho
      cases e with
      | input key data =>
          by_cases hk : (key == p.key) = true
          · have hset : (reqStep p (InputOcc.input key data)).settledReq
                = some (InputReqOutcome.resolved data) ∧
                (reqStep p (InputOcc.input key data)).timerActive = false ∧
                (reqStep p (InputOcc.input key data)).subInput = false ∧
                (reqStep p (InputOcc.input key data)).subStateChanged = false := by
              simp [reqStep, h2, hk, reqCleanup]
            rw [reqFold_done_fix _ l ⟨hset.2.1, hset.2.2.1, hset.2.2.2⟩, hset.1]
              at ho
            refine Or.inl ⟨data, ?_, (Option.some_inj.mp ho).symm⟩
            have : key = p.key := by simpa using hk
            rw [← this]
            exact List.mem_cons_self _ _
          · have hfix : reqStep p (InputOcc.input key data) = p := by
              simp [reqStep, h2, hk]
            rw [hfix] at ho
            rcases ih p ⟨h0, h1, h2, h3⟩ ho with ⟨d, hm, hd⟩ | hr | hr
            · exact Or.inl ⟨d, List.mem_cons_of_mem _ hm, hd⟩
            · exact Or.inr (Or.inl hr)
            · exact Or.inr (Or.inr hr)
      | stateChanged newState =>
          by_cases hs : newState = JobState.awaitingInput
          · have hfix : reqStep p (InputOcc.stateChanged newState) = p := by
              simp [reqStep, h3, hs]
            rw [hfix] at ho
            rcases ih p ⟨h0, h1, h2, h3⟩ ho with ⟨d, hm, hd⟩ | hr | hr
            · exact Or.inl ⟨d, List.mem_cons_of_mem _ hm, hd⟩
            · exact Or.inr (Or.inl hr)
            · exact Or.inr (Or.inr hr)
          · have hset : (reqStep p (InputOcc.stateChanged newState)).settledReq
                = some (InputReqOutcome.rejected "AwaitingInputInterrupted" none) ∧
                (reqStep p (InputOcc.stateChanged newState)).timerActive = false ∧
                (reqStep p (InputOcc.stateChanged newState)).subInput = false ∧
                (reqStep p (InputOcc.stateChanged newState)).subStateChanged = false := by
              simp [reqStep, h3, hs, reqCleanup]
            rw [reqFold_done_fix _ l ⟨hset.2.1, hset.2.2.1, hset.2.2.2⟩, hset.1]
              at ho
            exact Or.inr (Or.inr (Option.some_inj.mp ho).symm)
      | timerFire =>
          have hset : (reqStep p InputOcc.timerFire).settledReq
              = some (InputReqOutcome.rejected "InputTimeout" (some p.key)) ∧
              (reqStep p InputOcc.timerFire).timerActive = false ∧
              (reqStep p InputOcc.timerFire).subInput = false ∧
              (reqStep p InputOcc.timerFire).subStateChanged = false := by
            simp [reqStep, h1, reqCleanup]
          rw [reqFold_done_fix _ l ⟨hset.2.1, hset.2.2.1, hset.2.2.2⟩, hset.1]
            at ho
          exact Or.inr (Or.inl (Option.some_inj.mp ho).symm)

lemma pendingReqContract {α : Type} (p : PendingInputReq α) (hp : reqReady p) :
    (∀ occs o, (runInputReq p occs).settledReq = some o →
        (∃ d, InputOcc.input p.key d ∈ occs ∧
            o = InputReqOutcome.resolved d) ∨
        o = InputReqOutcome.rejected "InputTimeout" (some p.key) ∨
        o = InputReqOutcome.rejected "AwaitingInputInterrupted" none) ∧
    (∀ occs, (runInputReq p occs).settledReq.isSome = true →
        (runInputReq p occs).timerActive = false ∧
        (runInputReq p occs).subInput = false ∧
        (runInputReq p occs).subStateChanged = false) ∧
    (∀ pre d post, (runInputReq p pre).settledReq = none →
        (runInputReq p (pre ++ InputOcc.input p.key d :: post)).settledReq
          = some (InputReqOutcome.resolved d)) ∧
    (∀ pre post, (runInputReq p pre).settledReq = none →
        (runInputReq p (pre ++ InputOcc.timerFire :: post)).settledReq
          = some (InputReqOutcome.rejected "InputTimeout" (some p.key))) ∧
    (∀ pre s' post, s' ≠ JobState.awaitingInput →
        (runInputReq p pre).settledReq = none →
        (runInputReq p (pre ++ InputOcc.stateChanged s' :: post)).settledReq
          = some (InputReqOutcome.rejected "AwaitingInputInterrupted" none)) ∧
    (∀ occs more, (runInputReq p occs).settledReq.isSome = true →
        (runInputReq p (occs ++ more)).settledReq
          = (runInputReq p occs).settledReq) := by
  simp only [runInputReq]
  have hreadypre : ∀ l : List (InputOcc α),
      (List.foldl reqStep p l).settledReq = none →
      reqReady (List.foldl reqStep p l) := by
    intro l hl
    rcases reqFold_pres p l (Or.inl hp) with h | h
    · exact h
    · have hsome := h.1
      rw [hl] at hsome
      exact absurd hsome (by simp)
  refine ⟨?_, ?_, ?_, ?_, ?_, ?_⟩
  · intro occs o ho
    exact reqFold_settled_shape p occs hp o ho
  · intro occs hsome
    rcases reqFold_pres p occs (Or.inl hp) with h | h
    · have := h.1
      rw [this] at hsome
      exact absurd hsome (by simp)
    · exact ⟨h.2.1, h.2.2.1, h.2.2.2⟩
  · intro pre d post hpre
    have hready := hreadypre pre hpre
    have hkey : (List.foldl reqStep p pre).key = p.key := reqFold_key_fixed p pre
    rw [List.foldl_append, List.foldl_cons]
    have hset : (reqStep (List.foldl reqStep p pre)
          (InputOcc.input p.key d)).settledReq
        = some (InputReqOutcome.resolved d) ∧
        (reqStep (List.foldl reqStep p pre)
          (InputOcc.input p.key d)).timerActive = false ∧
        (reqStep (List.foldl reqStep p pre) (InputOcc.input p.key d)).subInput
          = false ∧
        (reqStep (List.foldl reqStep p pre)
          (InputOcc.input p.key d)).subStateChanged = false := by
      simp [reqStep, hready.2.2.1, hkey, reqCleanup]
    rw [reqFold_done_fix _ post ⟨hset.2.1, hset.2.2.1, hset.2.2.2⟩]
    exact hset.1
  · intro pre post hpre
    have hready := hreadypre pre hpre
    rw [List.foldl_append, List.foldl_cons]
    have hset : (reqStep (List.foldl reqStep p pre)
          InputOcc.timerFire).settledReq
        = some (InputReqOutcome.rejected "InputTimeout"
            (some (List.foldl reqStep p pre).key)) ∧
        (reqStep (List.foldl reqStep p pre) InputOcc.timerFire).timerActive
          = false ∧
        (reqStep (List.foldl reqStep p pre) InputOcc.timerFire).subInput
          = false ∧
        (reqStep (List.foldl reqStep p pre)
          InputOcc.timerFire).subStateChanged = false := by
      simp [reqStep, hready.2.1, reqCleanup]
    rw [reqFold_done_fix _ post ⟨hset.2.1, hset.2.2.1, hset.2.2.2⟩, hset.1,
      reqFold_key_fixed p pre]
  · intro pre s' post hs hpre
    have hready := hreadypre pre hpre
    rw [List.foldl_append, List.foldl_cons]
    have hset : (reqStep (List.foldl reqStep p pre)
          (InputOcc.stateChanged s')).settledReq
        = some (InputReqOutcome.rejected "AwaitingInputInterrupted" none) ∧
        (reqStep (List.foldl reqStep p pre)
          (InputOcc.stateChanged s')).timerActive = false ∧
        (reqStep (List.foldl reqStep p pre)
          (InputOcc.stateChanged s')).subInput = false ∧
        (reqStep (List.foldl reqStep p pre)
          (InputOcc.stateChanged s')).subStateChanged = false := by
      simp [reqStep, hready.2.2.2, hs, reqCleanup]
    rw [reqFold_done_fix _ post ⟨hset.2.1, hset.2.2.1, hset.2.2.2⟩]
    exact hset.1
  · intro occs more hsome
    rcases reqFold_pres p occs (Or.inl hp) with h | h
    · have := h.1
      rw [this] at hsome
      exact absurd hsome (by simp)
    · rw [List.foldl_append,
        reqFold_done_fix _ more ⟨h.2.1, h.2.2.1, h.2.2.2⟩]

/-- C4: a local input request for key `k` returns the cached data
synchronously (no notification, no state change) when `k` is already cached;
otherwise it appends `k` to the awaiting keys, transitions the job to
`awaitingInput` publishing `stateChanged` then `awaitingInput(k)`, and the
pending promise settles in exactly one of three ways — resolved with the data
of a matching `input` notification, rejected `InputTimeout` with
`details.key = k` when the timer fires first, or rejected
`AwaitingInputInterrupted` when the state machine leaves `awaitingInput`
first — with the timer cancelled and both listeners removed on every settling
branch, and the settlement immune to later occurrences. -/
theorem requestInputData_contract {α : Type} (flow : LocalFlowState α)
    (key : String) :
    (∀ i, flow.inputs.find? (fun x => x.key == key) = some i →
        requestInputData flow key
          = RequestInputResult.immediate i.data flow []) ∧
    (flow.inputs.find? (fun x => x.key == key) = none →
      ∃ p, requestInputData flow key = RequestInputResult.pendingReq p
            [BusNotif.stateChanged JobState.awaitingInput flow.jobState,
             BusNotif.awaitingInput key] ∧
        p.key = key ∧
        p.flow.jobState = JobState.awaitingInput ∧
        p.flow.awaitingInputKeys = flow.awaitingInputKeys ++ [key] ∧
        p.flow.inputs = flow.inputs ∧
        reqReady p ∧
        (∀ occs o, (runInputReq p occs).settledReq = some o →
            (∃ d, InputOcc.input key d ∈ occs ∧
                o = InputReqOutcome.resolved d) ∨
            o = InputReqOutcome.rejected "InputTimeout" (some key) ∨
            o = InputReqOutcome.rejected "AwaitingInputInterrupted" none) ∧
        (∀ occs, (runInputReq p occs).settledReq.isSome = true →
            (runInputReq p occs).timerActive = false ∧
            (runInputReq p occs).subInput = false ∧
            (runInputReq p occs).subStateChanged = false) ∧
        (∀ pre d post, (runInputReq p pre).settledReq = none →
            (runInputReq p (pre ++ InputOcc.input key d :: post)).settledReq
              = some (InputReqOutcome.resolved d)) ∧
        (∀ pre post, (runInputReq p pre).settledReq = none →
            (runInputReq p (pre ++ InputOcc.timerFire :: post)).settledReq
              = some (InputReqOutcome.rejected "InputTimeout" (some key))) ∧
        (∀ pre s' post, s' ≠ JobState.awaitingInput →
            (runInputReq p pre).settledReq = none →
            (runInputReq p
                (pre ++ InputOcc.stateChanged s' :: post)).settledReq
              = some (InputReqOutcome.rejected "AwaitingInputInterrupted" none)) ∧
        (∀ occs more, (runInputReq p occs).settledReq.isSome = true →
            (runInputReq p (occs ++ more)).settledReq
              = (runInputReq p occs).settledReq)) := by
  constructor
  · intro i hi
    simp [requestInputData, hi]
  · intro hnone
    have hcontract := pendingReqContract (α := α)
      { key := key, settledReq := none, timerActive := true,
        subInput := true, subStateChanged := true,
        flow := { inputs := flow.inputs, outputs := flow.outputs,
                  awaitingInputKeys := flow.awaitingInputKeys ++ [key],
                  jobState := JobState.awaitingInput } }
      ⟨rfl, rfl, rfl, rfl⟩
    refine ⟨{ key := key, settledReq := none, timerActive := true,
              subInput := true, subStateChanged := true,
              flow := { inputs := flow.inputs, outputs := flow.outputs,
                        awaitingInputKeys := flow.awaitingInputKeys ++ [key],
                        jobState := JobState.awaitingInput } },
      ?_, rfl, rfl, rfl, rfl, ⟨rfl, rfl, rfl, rfl⟩,
      hcontract.1, hcontract.2.1, hcontract.2.2.1, hcontract.2.2.2.1,
      hcontract.2.2.2.2.1, hcontract.2.2.2.2.2⟩
    simp [requestInputData, hnone]

/-- C4 witness: with no cached inputs, requesting key `value` leaves a pending
request which, when the timer fires first, rejects with `InputTimeout`
carrying `details.key = value`. -/
theorem requestInputData_contract_witness :
    (runInputReq
        { key := "value", settledReq := none, timerActive := true,
          subInput := true, subStateChanged := true,
          flow := { inputs := ([] : List (JobInput Nat)), outputs := [],
                    awaitingInputKeys := ["value"],
                    jobState := JobState.awaitingInput } }
        [InputOcc.timerFire]).settledReq
      = some (InputReqOutcome.rejected "InputTimeout" (some "value")) := by
  obtain ⟨p, heq, -, -, -, -, -, -, -, -, htimer, -, -⟩ :=
    (requestInputData_contract
      ({ inputs := [], outputs := [], awaitingInputKeys := [],
         jobState := JobState.processing } : LocalFlowState Nat) "value").2 rfl
  have hev : requestInputData
      ({ inputs := [], outputs := [], awaitingInputKeys := [],
         jobState := JobState.processing } : LocalFlowState Nat) "value"
      = RequestInputResult.pendingReq
          { key := "value", settledReq := none, timerActive := true,
            subInput := true, subStateChanged := true,
            flow := { inputs := ([] : List (JobInput Nat)), outputs := [],
                      awaitingInputKeys := ["value"],
                      jobState := JobState.awaitingInput } }
          [BusNotif.stateChanged JobState.awaitingInput JobState.processing,
           BusNotif.awaitingInput "value"] := rfl
  have hinj := hev.symm.trans heq
  have hp := (RequestInputResult.pendingReq.injEq _ _ _ _).mp hinj
  have := htimer [] []
  rw [← hp.1] at this
  simpa using this rfl

/-- C7 counterexample: in the current `Job` class (job.ts) the try/catch of
`_createJobEventHandler` is commented out, so a listener callback that throws
emits nothing on the bus `error` channel — the claimed redirect does not
happen. -/
theorem createJobEventHandlerWrap_no_redirect_cex :
    (createJobEventHandlerWrap (HandlerResult.threw (0 : Nat))).busErrorEmitted
        = none ∧
      ¬ (createJobEventHandlerWrap
          (HandlerResult.threw (0 : Nat))).busErrorEmitted = some 0 := by
  decide

/-- C7 amended: a throwing listener callback is never propagated to the
emitting call stack (the wrapper is `async`, so `emit` sees only a promise);
in the current `Job` class the exception becomes an unawaited rejected
promise and is not redirected to the bus `error` channel, while the legacy
`Job` copy in robot.ts does redirect it to `error`. -/
theorem createJobEventHandlerWrap_isolation {ε : Type} (e : ε)
    (r : HandlerResult ε) :
    (createJobEventHandlerWrap r).propagatedToEmitter = none ∧
    (createJobEventHandlerWrapLegacy r).propagatedToEmitter = none ∧
    (createJobEventHandlerWrap (HandlerResult.threw e)).busErrorEmitted
      = none ∧
    (createJobEventHandlerWrap (HandlerResult.threw e)).unhandledRejection
      = some e ∧
    (createJobEventHandlerWrapLegacy (HandlerResult.threw e)).busErrorEmitted
      = some e ∧
    (createJobEventHandlerWrapLegacy
        (HandlerResult.threw e)).unhandledRejection = none := by
  cases r <;>
    simp [createJobEventHandlerWrap, createJobEventHandlerWrapLegacy]

/-- C8 counterexample: a wildcard `onAwaitingInput('*', fn)` handler whose
settled value is not `undefined` triggers an automatic `submitInput` — under
the literal key `*` — so submission is not solely the handler's
responsibility. -/
theorem onAwaitingInput_wildcard_autosubmit_cex :
    (onAwaitingInputHandle "*" (fun _ => some (1 : Nat)) "foo").submitted
        = some ("*", 1) ∧
      ¬ (onAwaitingInputHandle "*" (fun _ => some (1 : Nat)) "foo").submitted
          = none := by
  decide

/-- C8 amended: with the wildcard registration the handler runs on every
`awaitingInput` notification and receives the requested key; if its settled
value is not `undefined` that value is auto-submitted under the literal key
`*` (so a wildcard handler that submits manually must return `undefined`).
With a concrete key `k` the handler runs exactly when the requested key
equals `k`, and a non-`undefined` settled value is auto-submitted under
`k`. -/
theorem onAwaitingInput_semantics {α : Type} (fn : String → Option α)
    (requestedKey : String) (k : String) :
    ((onAwaitingInputHandle "*" fn requestedKey).invokedWith
        = some requestedKey) ∧
    ((onAwaitingInputHandle "*" fn requestedKey).submitted
        = (fn requestedKey).map (fun d => ("*", d))) ∧
    (k ≠ "*" →
      (onAwaitingInputHandle k fn requestedKey).invokedWith
          = (if requestedKey = k then some requestedKey else none) ∧
      (onAwaitingInputHandle k fn requestedKey).submitted
          = (if requestedKey = k then (fn requestedKey).map (fun d => (k, d))
             else none)) := by
  refine ⟨?_, ?_, ?_⟩
  · cases hfn : fn requestedKey <;> simp [onAwaitingInputHandle, hfn]
  · cases hfn : fn requestedKey <;> simp [onAwaitingInputHandle, hfn]
  · intro hk
    have hk2 : (k == "*") = false := by
      simp [hk]
    by_cases hr : requestedKey = k
    · subst hr
      cases hfn : fn requestedKey <;>
        simp [onAwaitingInputHandle, hk2, hfn]
    · have hr2 : (requestedKey == k) = false := by
        simp [hr]
      cases hfn : fn requestedKey <;>
        simp [onAwaitingInputHandle, hk2, hr2, hr, hfn]

/-- C8 witness: a handler registered for key `bar` does not run (and nothing
is submitted) when key `foo` is requested. -/
theorem onAwaitingInput_semantics_witness :
    (onAwaitingInputHandle "bar" (fun _ => some (2 : Nat)) "foo").invokedWith
        = none ∧
    (onAwaitingInputHandle "bar" (fun _ => some (2 : Nat)) "foo").submitted
        = none := by
  have h := (onAwaitingInput_semantics (fun _ => some (2 : Nat)) "foo" "bar").2.2
    (by decide)
  constructor
  · rw [h.1]
    decide
  · rw [h.2]
    decide

/-- C9 counterexample: the cloud driver sets `awaitingInputKey` on an
`awaitingInput` event but never clears it: after a subsequent `processing`
event the state is `processing` while `awaitingInputKey` is still `foo`, so
the key is non-null outside the `awaitingInput` state. -/
theorem awaitingInputKey_outside_state_cex :
    (List.foldl
        (processJobEvent
          ({ outputData := fun _ => none, jobError := none } : AcApi Nat))
        cloudInit
        [{ name := AcEventName.awaitingInput, key := "foo" },
         { name := AcEventName.processing, key := "" }]).state
        = JobState.processing ∧
    (List.foldl
        (processJobEvent
          ({ outputData := fun _ => none, jobError := none } : AcApi Nat))
        cloudInit
        [{ name := AcEventName.awaitingInput, key := "foo" },
         { name := AcEventName.processing, key := "" }]).awaitingInputKey
        = some "foo" := by
  decide

/-- C9 amended: an `awaitingInput` event sets the awaiting key (and the
state, publishing the notifications); the local driver removes the key from
its awaiting set the moment a matching input arrives; but the cloud driver
never clears `awaitingInputKey` — `submitInput` leaves it untouched — so it
can remain non-null after the state leaves `awaitingInput`. -/
theorem awaitingInputKey_semantics {α : Type} (api : AcApi α)
    (s : CloudState α) (k : String) (d : α) (p : PendingInputReq α) :
    ((processJobEvent api s { name := AcEventName.awaitingInput, key := k }).state
        = JobState.awaitingInput) ∧
    ((processJobEvent api s
        { name := AcEventName.awaitingInput, key := k }).awaitingInputKey
        = some k) ∧
    ((processJobEvent api s { name := AcEventName.awaitingInput, key := k }).notifs
        = s.notifs ++ [BusNotif.stateChanged JobState.awaitingInput s.state,
                       BusNotif.awaitingInput k]) ∧
    ((cloudSubmitInput s k d).awaitingInputKey = s.awaitingInputKey) ∧
    ((cloudSubmitInput s k d).state = s.state) ∧
    (p.subInput = true →
      (reqStep p (InputOcc.input p.key d)).flow.awaitingInputKeys
        = p.flow.awaitingInputKeys.filter (fun x => x ≠ p.key)) := by
  refine ⟨?_, ?_, ?_, rfl, rfl, ?_⟩
  · simp [processJobEvent, cloudSetState]
  · simp [processJobEvent, cloudSetState]
  · simp [processJobEvent, cloudSetState]
  · intro hsub
    simp [reqStep, hsub, reqCleanup]

/-- C9 witness: a pending local request for key `value` drops the key from
the awaiting set when the matching input arrives. -/
theorem awaitingInputKey_semantics_witness :
    (reqStep
        { key := "value", settledReq := none, timerActive := true,
          subInput := true, subStateChanged := true,
          flow := { inputs := ([] : List (JobInput Nat)), outputs := [],
                    awaitingInputKeys := ["value"],
                    jobState := JobState.awaitingInput } }
        (InputOcc.input "value" 7)).flow.awaitingInputKeys = [] := by
  have h := (awaitingInputKey_semantics
    ({ outputData := fun _ => none, jobError := none } : AcApi Nat)
    cloudInit "value" 7
    { key := "value", settledReq := none, timerActive := true,
      subInput := true, subStateChanged := true,
      flow := { inputs := ([] : List (JobInput Nat)), outputs := [],
                awaitingInputKeys := ["value"],
                jobState := JobState.awaitingInput } }).2.2.2.2.2 rfl
  rw [h]
  decide

/-- C5 counterexample: when a polled batch contains a further event after the
terminal one, the cloud driver keeps translating it — a batch
`[success, processing]` publishes `stateChanged(processing, success)` after
the terminal transition and leaves the state at `processing`, so the state
does change after reaching `success`. -/
theorem terminal_state_not_absorbing_cex :
    (trackFrom ({ outputData := fun _ => none, jobError := none } : AcApi Nat)
        [{ name := AcEventName.success, key := "" },
         { name := AcEventName.processing, key := "" }]
        cloudInit 0 [2]).final.state = JobState.processing ∧
    (trackFrom ({ outputData := fun _ => none, jobError := none } : AcApi Nat)
        [{ name := AcEventName.success, key := "" },
         { name := AcEventName.processing, key := "" }]
        cloudInit 0 [2]).final.notifs
      = [BusNotif.stateChanged JobState.success JobState.created,
         BusNotif.success,
         BusNotif.stateChanged JobState.processing JobState.success] := by
  decide

/-- C5 amended: the cloud tracking loop checks for a terminal state only
after translating a whole batch; if the batch leaves the state at `success`
or `fail` the loop stops there — the run's final state, notifications, cursor
and consumed events are those of that batch and are independent of any
further scheduled polls — but events later in the same batch as the terminal
event are still translated and may move the state away from terminal (the
counterexample). -/
theorem cloud_terminal_stops_polling {α : Type} (api : AcApi α)
    (log : List AcJobEvent) (s : CloudState α) (offset : Nat) (b : Nat)
    (bs bs' : List Nat)
    (hterm : (((log.drop offset).take b).foldl (processJobEvent api) s).state
          = JobState.success ∨
        (((log.drop offset).take b).foldl (processJobEvent api) s).state
          = JobState.fail) :
    trackFrom api log s offset (b :: bs)
        = trackFrom api log s offset (b :: bs') ∧
    (trackFrom api log s offset (b :: bs)).final
        = ((log.drop offset).take b).foldl (processJobEvent api) s ∧
    (trackFrom api log s offset (b :: bs)).consumed
        = (log.drop offset).take b ∧
    (trackFrom api log s offset (b :: bs)).offset
        = offset + ((log.drop offset).take b).length := by
  rcases hterm with h | h <;> simp [trackFrom, h]

/-- C5 witness: a log whose only event is terminal makes the run independent
of the rest of the poll schedule and final at `success`. -/
theorem cloud_terminal_stops_polling_witness :
    trackFrom ({ outputData := fun _ => none, jobError := none } : AcApi Nat)
        [{ name := AcEventName.success, key := "" }] cloudInit 0 [1, 5, 5]
      = trackFrom ({ outputData := fun _ => none, jobError := none } : AcApi Nat)
        [{ name := AcEventName.success, key := "" }] cloudInit 0 [1] ∧
    (trackFrom ({ outputData := fun _ => none, jobError := none } : AcApi Nat)
        [{ name := AcEventName.success, key := "" }] cloudInit 0
        [1, 5, 5]).final.state = JobState.success := by
  have h := cloud_terminal_stops_polling
    ({ outputData := fun _ => none, jobError := none } : AcApi Nat)
    [{ name := AcEventName.success, key := "" }] cloudInit 0 1 [5, 5] []
    (by decide)
  exact ⟨h.1, by decide⟩

/-- C6: evidence of the divergence — the `fail` listener installed by
`LocalJob._setupScriptListeners` transitions the state to `fail` and emits
the `fail` notification, but never assigns `this._error`, so
`LocalJob.getErrorInfo()` still returns `null` in state `fail`,
contradicting the claimed "non-null iff state is `fail`". -/
theorem localJob_fail_errorInfo_null :
    (onScriptFail (localJobInit (α := Nat)) none).state = JobState.fail ∧
    localGetErrorInfo (onScriptFail (localJobInit (α := Nat)) none) = none ∧
    (onScriptFail (localJobInit (α := Nat)) none).notifs
      = [BusNotif.stateChanged JobState.fail JobState.created,
         BusNotif.fail "UnknownError"] := by
  decide

/-- C10: the spread defaults of `Robot.createJob` and of the `CloudJob`
constructor: no options yields category `test` and an empty input set; a
supplied `category` or `input` overrides exactly that field; and a freshly
constructed `CloudJob` starts in state `created` with empty caches and the
merged init params. -/
theorem createJob_defaults {α : Type} (c : JobCategory)
    (i : List (String × α)) :
    mergeJobInitParams
        ({ category := none, input := none } : PartialJobInitParams α)
      = { category := JobCategory.test, input := [] } ∧
    mergeJobInitParams { category := some c, input := none }
      = { category := c, input := ([] : List (String × α)) } ∧
    mergeJobInitParams { category := none, input := some i }
      = { category := JobCategory.test, input := i } ∧
    mergeJobInitParams { category := some c, input := some i }
      = { category := c, input := i } ∧
    cloudJobNew ({ category := none, input := none } : PartialJobInitParams α)
      = ({ state := JobState.created, error := none, awaitingInputKey := none,
           outputsMap := [], inputsMap := [], notifs := [] },
         { category := JobCategory.test, input := [] }) := by
  exact ⟨rfl, rfl, rfl, rfl, rfl⟩

/-! ## Cursor arithmetic of the cloud tracking loop -/

lemma take_length_take {β : Type} (l : List β) (b : Nat) :
    l.take ((l.take b).length) = l.take b := by
  rw [List.length_take]
  rcases Nat.le_total b l.length with h | h
  · rw [Nat.min_eq_left h]
  · rw [Nat.min_eq_right h, List.take_length, List.take_of_length_le h]

lemma trackFrom_cons_terminal {α : Type} (api : AcApi α)
    (log : List AcJobEvent) (s : CloudState α) (offset : Nat) (b : Nat)
    (bs : List Nat)
    (hterm : (((log.drop offset).take b).foldl (processJobEvent api) s).state
          = JobState.success ∨
        (((log.drop offset).take b).foldl (processJobEvent api) s).state
          = JobState.fail) :
    (trackFrom api log s offset (b :: bs)).offset
        = offset + ((log.drop offset).take b).length ∧
    (trackFrom api log s offset (b :: bs)).polls
        = [(offset, ((log.drop offset).take b).length)] ∧
    (trackFrom api log s offset (b :: bs)).consumed
        = (log.drop offset).take b := by
  rcases hterm with h | h <;> simp [trackFrom, h]

lemma trackFrom_cons_nonterminal {α : Type} (api : AcApi α)
    (log : List AcJobEvent) (s : CloudState α) (offset : Nat) (b : Nat)
    (bs : List Nat)
    (h1 : (((log.drop offset).take b).foldl (processJobEvent api) s).state
        ≠ JobState.success)
    (h2 : (((log.drop offset).take b).foldl (processJobEvent api) s).state
        ≠ JobState.fail) :
    (trackFrom api log s offset (b :: bs)).offset
        = (trackFrom api log
            (((log.drop offset).take b).foldl (processJobEvent api) s)
            (offset + ((log.drop offset).take b).length) bs).offset ∧
    (trackFrom api log s offset (b :: bs)).polls
        = (offset, ((log.drop offset).take b).length) ::
          (trackFrom api log
            (((log.drop offset).take b).foldl (processJobEvent api) s)
            (offset + ((log.drop offset).take b).length) bs).polls ∧
    (trackFrom api log s offset (b :: bs)).consumed
        = (log.drop offset).take b ++
          (trackFrom api log
            (((log.drop offset).take b).foldl (processJobEvent api) s)
            (offset + ((log.drop offset).take b).length) bs).consumed := by
  cases hstate : (((log.drop offset).take b).foldl (processJobEvent api) s).state
  all_goals
    first
    | exact absurd hstate h1
    | exact absurd hstate h2
    | simp [trackFrom, hstate]

lemma trackFrom_spec {α : Type} (api : AcApi α) (log : List AcJobEvent) :
    ∀ (bs : List Nat) (s : CloudState α) (offset : Nat),
      offset ≤ log.length →
      offset ≤ (trackFrom api log s offset bs).offset ∧
      (trackFrom api log s offset bs).offset ≤ log.length ∧
      (trackFrom api log s offset bs).consumed
        = (log.drop offset).take
            ((trackFrom api log s offset bs).offset - offset) ∧
      pollsChain offset (trackFrom api log s offset bs).polls
        (trackFrom api log s offset bs).offset := by
  intro bs
  induction bs with
  | nil =>
      intro s offset h
      exact ⟨le_refl _, h, by simp [trackFrom], rfl⟩
  | cons b bs ih =>
      intro s offset h
      have hlen : ((log.drop offset).take b).length ≤ log.length - offset := by
        rw [List.length_take, List.length_drop]
        exact Nat.min_le_right _ _
      have hoff : offset + ((log.drop offset).take b).length ≤ log.length := by
        omega
      by_cases hterm :
          (((log.drop offset).take b).foldl (processJobEvent api) s).state
              = JobState.success ∨
          (((log.drop offset).take b).foldl (processJobEvent api) s).state
              = JobState.fail
      · obtain ⟨he1, he2, he3⟩ :=
          trackFrom_cons_terminal api log s offset b bs hterm
        rw [he1, he2, he3]
        refine ⟨Nat.le_add_right _ _, hoff, ?_, rfl, rfl⟩
        rw [Nat.add_sub_cancel_left, take_length_take]
      · push_neg at hterm
        obtain ⟨he1, he2, he3⟩ :=
          trackFrom_cons_nonterminal api log s offset b bs hterm.1 hterm.2
        obtain ⟨ih1, ih2, ih3, ih4⟩ :=
          ih (((log.drop offset).take b).foldl (processJobEvent api) s)
            (offset + ((log.drop offset).take b).length) hoff
        rw [he1, he2, he3]
        refine ⟨?_, ih2, ?_, rfl, ih4⟩
        · exact le_trans (Nat.le_add_right _ _) ih1
        · have harith :
              (trackFrom api log
                  (((log.drop offset).take b).foldl (processJobEvent api) s)
                  (offset + ((log.drop offset).take b).length) bs).offset
                  - offset
              = ((log.drop offset).take b).length +
                ((trackFrom api log
                    (((log.drop offset).take b).foldl (processJobEvent api) s)
                    (offset + ((log.drop offset).take b).length) bs).offset
                  - (offset + ((log.drop offset).take b).length)) := by
            omega
          rw [harith, List.take_add, take_length_take, ih3, List.drop_drop]

lemma pollsChain_le : ∀ (ps : List (Nat × Nat)) (start fin : Nat),
    pollsChain start ps fin → start ≤ fin := by
  intro ps
  induction ps with
  | nil =>
      intro start fin h
      exact le_of_eq (Eq.symm (show fin = start from h))
  | cons p ps ih =>
      obtain ⟨o, n⟩ := p
      intro start fin h
      obtain ⟨-, hc⟩ := h
      exact le_trans (Nat.le_add_right _ _) (ih (start + n) fin hc)

lemma pollsChain_sum : ∀ (ps : List (Nat × Nat)) (start fin : Nat),
    pollsChain start ps fin → start + (ps.map Prod.snd).sum = fin := by
  intro ps
  induction ps with
  | nil =>
      intro start fin h
      have h2 : fin = start := h
      simp [h2]
  | cons p ps ih =>
      obtain ⟨o, n⟩ := p
      intro start fin h
      obtain ⟨-, hc⟩ := h
      have := ih (start + n) fin hc
      simp only [List.map_cons, List.sum_cons]
      omega

lemma pollsChain_bounds_nodup : ∀ (ps : List (Nat × Nat)) (start fin : Nat),
    pollsChain start ps fin →
    (∀ i ∈ ps.flatMap (fun p => List.range' p.1 p.2), start ≤ i ∧ i < fin) ∧
      (ps.flatMap (fun p => List.range' p.1 p.2)).Nodup := by
  intro ps
  induction ps with
  | nil =>
      intro start fin h
      constructor
      · intro i hi
        simp at hi
      · simp
  | cons p ps ih =>
      obtain ⟨o, n⟩ := p
      intro start fin h
      obtain ⟨ho, hc⟩ := h
      subst ho
      obtain ⟨ihb, ihn⟩ := ih (o + n) fin hc
      have hfin : o + n ≤ fin := pollsChain_le ps (o + n) fin hc
      constructor
      · intro i hi
        rw [List.flatMap_cons, List.mem_append] at hi
        rcases hi with hi | hi
        · obtain ⟨hlo, hhi⟩ := List.mem_range'_1.mp hi
          exact ⟨hlo, lt_of_lt_of_le hhi hfin⟩
        · obtain ⟨hlo, hhi⟩ := ihb i hi
          exact ⟨le_trans (Nat.le_add_right _ _) hlo, hhi⟩
      · rw [List.flatMap_cons]
        refine List.Nodup.append (List.nodup_range' _ _) ihn ?_
        intro a ha ha'
        obtain ⟨-, h2⟩ := List.mem_range'_1.mp ha
        obtain ⟨h3, -⟩ := ihb a ha'
        omega

lemma pollsChain_cursor_mono : ∀ (ps : List (Nat × Nat)) (start fin : Nat),
    pollsChain start ps fin →
    List.Chain' (fun a b => a ≤ b) (ps.map Prod.fst) := by
  intro ps
  induction ps with
  | nil =>
      intro start fin h
      simp
  | cons p ps ih =>
      obtain ⟨o, n⟩ := p
      intro start fin h
      obtain ⟨ho, hc⟩ := h
      subst ho
      have htail := ih (o + n) fin hc
      cases ps with
      | nil => simp
      | cons q ps2 =>
          obtain ⟨o2, n2⟩ := q
          obtain ⟨ho2, -⟩ := hc
          exact List.Chain'.cons (by rw [ho2]; exact Nat.le_add_right o n)
            htail

/-- C3: starting the cloud tracking loop at cursor `0` against a remote event
log, the final cursor never exceeds the log, the events consumed are exactly
the log's prefix up to the final cursor (so no remote event is translated
more than once, and in order), the per-poll cursor records chain — each poll
starts at the previous cursor and advances it by exactly the number of events
that poll returned — the cursor sequence is monotone non-decreasing, the
index ranges processed by the polls are pairwise disjoint (their
concatenation has no duplicates), and the total cursor advance equals the
number of events consumed. -/
theorem trackCursor_exactly_once {α : Type} (api : AcApi α)
    (log : List AcJobEvent) (s : CloudState α) (batches : List Nat) :
    (trackFrom api log s 0 batches).offset ≤ log.length ∧
    (trackFrom api log s 0 batches).consumed
      = log.take (trackFrom api log s 0 batches).offset ∧
    pollsChain 0 (trackFrom api log s 0 batches).polls
      (trackFrom api log s 0 batches).offset ∧
    ((trackFrom api log s 0 batches).polls.flatMap
        (fun p => List.range' p.1 p.2)).Nodup ∧
    List.Chain' (fun a b => a ≤ b)
      ((trackFrom api log s 0 batches).polls.map Prod.fst) ∧
    ((trackFrom api log s 0 batches).polls.map Prod.snd).sum
      = (trackFrom api log s 0 batches).consumed.length := by
  obtain ⟨h1, h2, h3, h4⟩ := trackFrom_spec api log batches s 0 (Nat.zero_le _)
  refine ⟨h2, ?_, h4, (pollsChain_bounds_nodup _ _ _ h4).2,
    pollsChain_cursor_mono _ _ _ h4, ?_⟩
  · rw [h3]
    simp
  · have hsum := pollsChain_sum _ _ _ h4
    rw [h3]
    simp only [Nat.zero_add] at hsum
    rw [List.drop_zero, List.length_take, Nat.sub_zero, hsum,
      Nat.min_eq_left h2]
